import Mathlib

/-!
Verification of the configuration-file resolution engine of
src/libraries/heft-config-file/src/ConfigurationFile.ts.

Part 1 models the recursive loader (`loadConfigurationFileForProjectAsync`,
`tryLoadConfigurationFileForProjectAsync`, `_loadConfigurationFileInnerWithCacheAsync`,
`_loadConfigurationFileInnerAsync`, `_tryLoadConfigurationFileInRigAsync`):
the promise cache, the visited set used for cycle detection, and the rig
fallback.  The filesystem, module resolution and the rig profile folder are
the external collaborators of the engine and are modelled as explicit inputs.

Part 2 models the merge engine (`_mergeObjects`, `_annotateProperties`,
`getPropertyOriginalValue`): JSON-like values carrying the out-of-band
provenance annotation, merge-behavior directives, and the per-property
inheritance policies.
-/

set_option autoImplicit false

/-- Absolute configuration file paths (already resolved by the `Resolver`). -/
abbrev FPath := String

/-- The `extends` reference of a configuration file, as seen through the
external `Import.resolveModule` collaborator: either it resolves to an
absolute path, or resolution fails with a not-exist error
(the `unresolvable` case). -/
inductive ExtRef where
  | unresolvable
  | resolved (q : FPath)
  deriving DecidableEq, Repr

/-- The parsed content of one configuration file, as far as the loader's
control flow is concerned: its optional `extends` property. -/
structure FileData where
  ext : Option ExtRef
  deriving DecidableEq, Repr

/-- The filesystem collaborator: a finite map from absolute path to file
content; a missing entry means `FileSystem.readFileAsync` fails with a
not-exist error. -/
abbrev FS := List (FPath × FileData)

/-- The error taxonomy relevant to the loader claims.  `notExist` is the only
error for which `FileSystem.isNotExistError` returns true; `cycle` is the
plain Error thrown by the loop check; `brokenExtends` is the plain Error that
wraps a not-exist failure surfaced while resolving or loading an `extends`
ancestor. -/
inductive LoadErr where
  | notExist (p : FPath)
  | cycle (p : FPath)
  | brokenExtends (file : FPath)
  deriving DecidableEq, Repr

/-- `FileSystem.isNotExistError`. -/
def LoadErr.isNotExist : LoadErr → Bool
  | .notExist _ => true
  | _ => false

/-- Outcome of awaiting a load: a successfully merged configuration
(abstracted as the chain of file paths that contributed, leaf first), a
rejection, a deadlock on a pending promise, or fuel exhaustion of the model. -/
inductive LoadResult where
  | ok (chain : List FPath)
  | err (e : LoadErr)
  | hang
  | outOfFuel
  deriving DecidableEq, Repr

/-- State of one `_configPromiseCache` entry: a promise that is still pending
or one that has settled (resolved or rejected). -/
inductive CacheState where
  | pending
  | settled (r : LoadResult)
  deriving DecidableEq, Repr

/-- `_configPromiseCache`: absolute path to promise state. -/
abbrev Cache := List (FPath × CacheState)

/-- The mutable state shared across one spec instance: the promise cache plus
an instrumentation counter of `FileSystem.readFileAsync` attempts (used to
observe whether a load re-reads a file). -/
structure LoadState where
  cache : Cache
  reads : Nat
  deriving DecidableEq, Repr

/-- The rig collaborator (`RigConfig`): whether a rig was found, and
`resolve(rigProfileFolder, projectRelativeFilePath)` when it was. -/
structure Rig where
  rigFound : Bool
  candidate : FPath
  deriving DecidableEq, Repr

/-- Settling the cached promise for `p`: the promise object stored in the
map transitions from pending to settled with result `r`. -/
def settleCache (cache : Cache) (p : FPath) (r : LoadResult) : Cache :=
  cache.map (fun entry => if entry.1 == p then (entry.1, CacheState.settled r) else entry)

/-- `_loadConfigurationFileInnerWithCacheAsync`, with
`_loadConfigurationFileInnerAsync` inlined in the cache-miss branch (in the
source the inner function is called from exactly one place).  Faithful
ordering from the source: the cache is consulted first; on a miss the pending
promise is created and cached; THEN the visited-set loop check runs (in every
branch); only then is the cached promise awaited.  Awaiting a promise that is
pending but was created by an ancestor frame never resolves (`hang`).  The
inner load reads the file; on a not-exist failure it attempts the rig
fallback (`_tryLoadConfigurationFileInRigAsync`) passing the SAME visited
set and no rig for the nested call, swallowing a not-exist failure of the rig
load and rethrowing the original not-exist error; on success it resolves
`extends` and recurses with the same visited set and no rig, rewrapping a
not-exist failure as a broken-extends error.  `fuel` bounds the recursion
depth of the model only. -/
def loadWithCache (fs : FS) : Nat → FPath → List FPath → LoadState → Option Rig →
    LoadResult × LoadState
  | 0, _, _, st, _ => (.outOfFuel, st)
  | fuel + 1, p, visited, st, rig =>
    match st.cache.lookup p with
    | some (.settled r) =>
      if visited.contains p then (.err (.cycle p), st) else (r, st)
    | some .pending =>
      if visited.contains p then (.err (.cycle p), st) else (.hang, st)
    | none =>
      let st1 : LoadState := { st with cache := (p, CacheState.pending) :: st.cache }
      if visited.contains p then (.err (.cycle p), st1)
      else
        let visited1 := p :: visited
        let st2 : LoadState := { st1 with reads := st1.reads + 1 }
        let inner : LoadResult × LoadState :=
          match fs.lookup p with
          | none =>
            match rig with
            | some rg =>
              if rg.rigFound then
                match loadWithCache fs fuel rg.candidate visited1 st2 none with
                | (.ok v, st3) => (.ok v, st3)
                | (.err e, st3) =>
                  if e.isNotExist then (.err (.notExist p), st3) else (.err e, st3)
                | (other, st3) => (other, st3)
              else (.err (.notExist p), st2)
            | none => (.err (.notExist p), st2)
          | some fd =>
            match fd.ext with
            | none => (.ok [p], st2)
            | some .unresolvable => (.err (.brokenExtends p), st2)
            | some (.resolved q) =>
              match loadWithCache fs fuel q visited1 st2 none with
              | (.ok chain, st3) => (.ok (p :: chain), st3)
              | (.err e, st3) =>
                if e.isNotExist then (.err (.brokenExtends p), st3) else (.err e, st3)
              | (other, st3) => (other, st3)
        (inner.1, { inner.2 with cache := settleCache inner.2.cache p inner.1 })

/-- `loadConfigurationFileForProjectAsync`, starting from a given shared
state (fresh visited set per top-level call). -/
def loadTopFrom (fs : FS) (fuel : Nat) (p : FPath) (rig : Option Rig)
    (st : LoadState) : LoadResult × LoadState :=
  loadWithCache fs fuel p [] st rig

/-- `loadConfigurationFileForProjectAsync` on a freshly constructed spec
instance (empty cache). -/
def loadTop (fs : FS) (fuel : Nat) (p : FPath) (rig : Option Rig) :
    LoadResult × LoadState :=
  loadTopFrom fs fuel p rig ⟨[], 0⟩

/-- Result of `tryLoadConfigurationFileForProjectAsync`: a configuration, the
absent marker (`undefined`), or a propagated failure. -/
inductive TryResult where
  | ok (v : Option (List FPath))
  | err (e : LoadErr)
  | hang
  | outOfFuel
  deriving DecidableEq, Repr

/-- `tryLoadConfigurationFileForProjectAsync`: identical to the load, but a
failure for which `FileSystem.isNotExistError` holds is converted into the
absent marker; every other failure propagates. -/
def tryLoadTop (fs : FS) (fuel : Nat) (p : FPath) (rig : Option Rig) : TryResult :=
  match (loadTop fs fuel p rig).1 with
  | .ok v => .ok (some v)
  | .err e => if e.isNotExist then .ok none else .err e
  | .hang => .hang
  | .outOfFuel => .outOfFuel

/-- One step of the `extends` chain: the path the `extends` property of the
file at `p` resolves to, when the file exists and its reference resolves. -/
def chainStep (fs : FS) (p : FPath) : Option FPath :=
  match fs.lookup p with
  | none => none
  | some fd =>
    match fd.ext with
    | some (.resolved q) => some q
    | _ => none

/-- `chainLinksB fs p rest t`: starting at `p`, the `extends` chain passes
through the paths in `rest` in order and then reaches `t`. -/
def chainLinksB (fs : FS) : FPath → List FPath → FPath → Bool
  | p, [], t => chainStep fs p == some t
  | p, q :: rest, t => (chainStep fs p == some q) && chainLinksB fs q rest t

/-!
Part 2: the merge engine.
-/

/-- JSON-like values as the merge engine sees them.  Objects and arrays carry
the out-of-band provenance annotation stored in the source under the unique
symbol `CONFIGURATION_FILE_FIELD_ANNOTATION`: an optional pair of the source
`configurationFilePath` and the `originalValues` map.  In the source the
annotation is a hidden symbol-keyed field, invisible to `Object.keys`,
property enumeration and JSON serialization; modelling it as a separate
constructor argument preserves exactly that invisibility. -/
inductive JValue where
  | null
  | bool (b : Bool)
  | num (n : Int)
  | str (s : String)
  | arr (elems : List JValue) (ann : Option (Option String × List (String × JValue)))
  | obj (fields : List (String × JValue)) (ann : Option (Option String × List (String × JValue)))

/-- The index-keyed view of an array's elements: spreading an array into an
object (`{...array}`) yields its elements under the keys "0", "1", .... -/
def idxOv (es : List JValue) : List (String × JValue) :=
  es.enum.map (fun p => (toString p.1, p.2))

/-- The index-keyed view of a string's characters (JS strings expose their
characters under integer-like keys). -/
def strIdx (s : String) : List (String × JValue) :=
  s.data.enum.map (fun p => (toString p.1, JValue.str (String.mk [p.2])))

/-- `Object.keys(x || {})`: own enumerable keys of `x`, with a falsy `x`
replaced by the empty object.  Objects expose their field names, arrays and
strings their index keys, every other value has none. -/
def keysOf : JValue → List String
  | .obj fields _ => fields.map Prod.fst
  | .arr es _ => (idxOv es).map Prod.fst
  | .str s => (strIdx s).map Prod.fst
  | _ => []

/-- `Object.keys((x : T | undefined) || {})`. -/
def keysOfOpt : Option JValue → List String
  | some v => keysOf v
  | none => []

/-- `(x || {})[k]`: own-property access guarded by the falsy-to-empty-object
coercion used throughout `_mergeObjects`.  `none` is JS `undefined`. -/
def getField : JValue → String → Option JValue
  | .obj fields _, k => fields.lookup k
  | .arr es _, k => (idxOv es).lookup k
  | .str s, k => (strIdx s).lookup k
  | _, _ => none

/-- `((x : T | undefined) || {})[k]`. -/
def getFieldOpt : Option JValue → String → Option JValue
  | some v, k => getField v k
  | none, _ => none

/-- JS truthiness of a defined value. -/
def truthy : JValue → Bool
  | .null => false
  | .bool b => b
  | .num n => n != 0
  | .str s => s != ""
  | _ => true

def truthyOpt : Option JValue → Bool
  | some v => truthy v
  | none => false

/-- `typeof x === 'object'` for a possibly-undefined value: true for null,
arrays and objects; false for primitives and for `undefined`. -/
def typeofIsObject : Option JValue → Bool
  | some .null => true
  | some (.arr _ _) => true
  | some (.obj _ _) => true
  | _ => false

/-- `Array.isArray` on a possibly-undefined value. -/
def isArrOpt : Option JValue → Bool
  | some (.arr _ _) => true
  | _ => false

/-- `x === null` on a possibly-undefined value. -/
def isNullOpt : Option JValue → Bool
  | some .null => true
  | _ => false

/-- `ConfigurationFile.getPropertyOriginalValue`: read the annotation of the
given object (if it is an annotated object or array) and look the property up
in its `originalValues` map; `undefined` otherwise.  (The source stores an
entry whose value may itself be `undefined`; since the only observations of
`originalValues` are this lookup and the append-policy spread of array
annotations — which never carry undefined entries — absent and
undefined-valued entries are observationally equal and are both modelled as
a missing entry.) -/
def getPropertyOriginalValue (parentObject : Option JValue) (propertyName : String) :
    Option JValue :=
  match parentObject with
  | some (.obj _ (some a)) => a.2.lookup propertyName
  | some (.arr _ (some a)) => a.2.lookup propertyName
  | _ => none

/-- `ConfigurationFile.getObjectSourceFilePath`: the `configurationFilePath`
of the annotation, if any. -/
def getObjectSourceFilePath : JValue → Option String
  | .obj _ (some a) => a.1
  | .arr _ (some a) => a.1
  | _ => none

/-- Entries of a key-value map whose key is not among `keys`. -/
def dropKeys (keys : List String) : List (String × JValue) → List (String × JValue)
  | [] => []
  | kv :: rest => if kv.1 ∈ keys then dropKeys keys rest else kv :: dropKeys keys rest

/-- The object spread `{...a, ...b}` on two key-value maps: entries of `a`
overridden by entries of `b` on key collision, new keys of `b` appended. -/
def spreadCombine (a b : List (String × JValue)) : List (String × JValue) :=
  a.map (fun kv => (kv.1, ((b.lookup kv.1).getD kv.2))) ++ dropKeys (a.map Prod.fst) b

/-- The regular expression
`CONFIGURATION_FILE_MERGE_BEHAVIOR_FIELD_REGEX = /^\$([^\.]+)\.mergeBehavior$/`:
returns the captured target property name on a match (a literal dollar sign,
then one or more non-dot characters — the capture — then the literal suffix
`.mergeBehavior`). -/
def parseMergeBehaviorKey (s : String) : Option String :=
  let suffix := ".mergeBehavior".data
  match s.data with
  | '$' :: rest =>
    if rest.reverse.take suffix.length = suffix.reverse then
      let mid := (rest.reverse.drop suffix.length).reverse
      if mid.length > 0 && !(mid.contains '.') then some (String.mk mid) else none
    else none
  | _ => none

/-- `String.prototype.toLowerCase` restricted to the ASCII range used by the
merge-behavior keywords. -/
def lowerString (s : String) : String := String.mk (s.data.map Char.toLower)

/-- `InheritanceType` plus the custom inheritance function of
`ICustomPropertyInheritance` (the function takes the child value first, the
parent value second, exactly as `inheritanceFunction(propertyValue,
parentPropertyValue)` is invoked in the source; the source's runtime check
that a function was supplied is rendered unnecessary by typing). -/
inductive Inheritance where
  | append
  | merge
  | replace
  | custom (f : Option JValue → Option JValue → JValue)

/-- The errors thrown by `_mergeObjects`, one constructor per distinct throw
site; each carries the property name interpolated into the message.
`annotationMissing` stands for the TypeError raised when the append policy
dereferences the annotation of an unannotated array (unreachable for arrays
produced by the load pipeline, which always annotates).  `outOfFuel` is a
model artifact for exhausted recursion depth. -/
inductive MergeErr where
  | directiveTargetMissing (prop : String)
  | directiveNotString (prop : String)
  | directiveTargetNotObject (prop : String)
  | directiveUnknownBehavior (prop : String) (raw : String)
  | appendNotArray (prop : String)
  | mergeNullValue (prop : String)
  | mergePrimitive (prop : String)
  | mergeArray (prop : String)
  | annotationMissing (prop : String)
  | outOfFuel

/-- First pass of `_mergeObjects` over `currentObjectPropertyNames`: skip
ignored properties, gather and validate `$<name>.mergeBehavior` directives
into the behavior map, collect the remaining names in order.  Validation
order per directive follows the source: target-exists, value-is-string,
target-is-typeof-object, then the case-insensitive keyword switch.  Later
entries of a JS `Map.set` override earlier ones, hence the later entry is
placed in front for the first-match list lookup. -/
def gatherDirectives (current : Option JValue) (ignoreProps : List String) :
    List String → Except MergeErr (List String × List (String × Inheritance))
  | [] => .ok ([], [])
  | k :: rest =>
    if k ∈ ignoreProps then gatherDirectives current ignoreProps rest
    else
      match parseMergeBehaviorKey k with
      | some target =>
        if target ∈ keysOfOpt current then
          match getFieldOpt current k with
          | some (.str raw) =>
            if !(typeofIsObject (getFieldOpt current target)) then
              .error (.directiveTargetNotObject k)
            else
              match lowerString raw with
              | "append" =>
                (gatherDirectives current ignoreProps rest).map
                  (fun fm => (fm.1, fm.2 ++ [(target, Inheritance.append)]))
              | "merge" =>
                (gatherDirectives current ignoreProps rest).map
                  (fun fm => (fm.1, fm.2 ++ [(target, Inheritance.merge)]))
              | "replace" =>
                (gatherDirectives current ignoreProps rest).map
                  (fun fm => (fm.1, fm.2 ++ [(target, Inheritance.replace)]))
              | _ => .error (.directiveUnknownBehavior k raw)
          | _ => .error (.directiveNotString k)
        else .error (.directiveTargetMissing k)
      | none =>
        (gatherDirectives current ignoreProps rest).map (fun fm => (k :: fm.1, fm.2))

/-- `new Set([...as, ...bs])` iterated in insertion order: first occurrences
kept. -/
def dedupFirst (seen : List String) : List String → List String
  | [] => []
  | k :: rest =>
    if k ∈ seen then dedupFirst seen rest
    else k :: dedupFirst (k :: seen) rest

/-- Second pass of `_mergeObjects`: resolve each property name in order.
`recm` is the recursive merge used by the merge policy (the source calls
`this._mergeObjects(parentPropertyValue, propertyValue,
resolvedConfigurationFilePath)` with no configured inheritance and no ignored
properties).  Returns the result's fields and the result annotation's
`originalValues` entries, in resolution order.  Each step mirrors the source
exactly: the one-side-defined short-circuit first, then the per-policy
switch (whose own one-side-defined branches are kept although the outer
short-circuit makes them unreachable). -/
def resolveProps (recm : Option JValue → Option JValue → Except MergeErr JValue)
    (parentObject currentObject : Option JValue)
    (behaviors configured : List (String × Inheritance)) :
    List String → Except MergeErr (List (String × JValue) × List (String × JValue))
  | [] => .ok ([], [])
  | name :: rest =>
    let propertyValue := getFieldOpt currentObject name
    let parentPropertyValue := getFieldOpt parentObject name
    let inheritance : Inheritance :=
      match behaviors.lookup name with
      | some b => b
      | none =>
        match configured.lookup name with
        | some c => c
        | none =>
          if isArrOpt propertyValue && isArrOpt parentPropertyValue then .append
          else .replace
    let step : Except MergeErr (Option JValue × Option JValue) :=
      if propertyValue.isSome && parentPropertyValue.isNone then
        .ok (propertyValue, getPropertyOriginalValue currentObject name)
      else if parentPropertyValue.isSome && propertyValue.isNone then
        .ok (parentPropertyValue, getPropertyOriginalValue parentObject name)
      else
        match inheritance with
        | .replace =>
          if propertyValue.isSome then
            .ok (propertyValue, getPropertyOriginalValue currentObject name)
          else
            .ok (parentPropertyValue, getPropertyOriginalValue parentObject name)
        | .append =>
          if propertyValue.isSome && parentPropertyValue.isNone then
            .ok (propertyValue, getPropertyOriginalValue currentObject name)
          else if propertyValue.isNone && parentPropertyValue.isSome then
            .ok (parentPropertyValue, getPropertyOriginalValue parentObject name)
          else
            match propertyValue, parentPropertyValue with
            | some (.arr ce cAnn), some (.arr pe pAnn) =>
              match pAnn, cAnn with
              | some pa, some ca =>
                .ok (some (.arr (pe ++ ce) (some (none, spreadCombine pa.2 ca.2))), none)
              | _, _ => .error (.annotationMissing name)
            | _, _ => .error (.appendNotArray name)
        | .merge =>
          if isNullOpt parentPropertyValue || isNullOpt propertyValue then
            .error (.mergeNullValue name)
          else if propertyValue.isSome && parentPropertyValue.isNone then
            .ok (propertyValue, getPropertyOriginalValue currentObject name)
          else if propertyValue.isNone && parentPropertyValue.isSome then
            .ok (parentPropertyValue, getPropertyOriginalValue parentObject name)
          else if (truthyOpt propertyValue && !typeofIsObject propertyValue)
              || (truthyOpt parentPropertyValue && !typeofIsObject parentPropertyValue) then
            .error (.mergePrimitive name)
          else if isArrOpt propertyValue || isArrOpt parentPropertyValue then
            .error (.mergeArray name)
          else
            match recm parentPropertyValue propertyValue with
            | .error e => .error e
            | .ok v => .ok (some v, none)
        | .custom f => .ok (some (f propertyValue parentPropertyValue), none)
    match step with
    | .error e => .error e
    | .ok (newValue, ovEntry) =>
      match resolveProps recm parentObject currentObject behaviors configured rest with
      | .error e => .error e
      | .ok fo =>
        .ok ((match newValue with
              | some v => (name, v) :: fo.1
              | none => fo.1),
             (match ovEntry with
              | some w => (name, w) :: fo.2
              | none => fo.2))

/-- `_mergeObjects(parentObject, currentObject, resolvedConfigurationFilePath,
configuredPropertyInheritance?, ignoreProperties?)`.  `fuel` bounds the
recursion depth of the merge policy (the source recursion is on strictly
smaller property values).  The result is a fresh object carrying the result
annotation `{configurationFilePath: resolvedConfigurationFilePath,
originalValues}`. -/
def mergeObjects : Nat → Option JValue → Option JValue → String →
    List (String × Inheritance) → List String → Except MergeErr JValue
  | 0, _, _, _, _, _ => .error .outOfFuel
  | fuel + 1, parentObject, currentObject, filePath, configured, ignoreProps =>
    match gatherDirectives currentObject ignoreProps (keysOfOpt currentObject) with
    | .error e => .error e
    | .ok fm =>
      let names := dedupFirst [] (keysOfOpt parentObject ++ fm.1)
      match resolveProps (fun pp cc => mergeObjects fuel pp cc filePath [] [])
          parentObject currentObject fm.2 configured names with
      | .error e => .error e
      | .ok fo => .ok (.obj fo.1 (some (some filePath, fo.2)))

/-- `_mergeConfigurationFiles`: the root-level merge, with the synthetic keys
`extends` and `$schema` excluded from regular merging. -/
def mergeConfigurationFiles (fuel : Nat) (parentConfiguration : Option JValue)
    (configurationJson : JValue) (resolvedConfigurationFilePath : String)
    (propertyInheritanceTypes : List (String × Inheritance)) : Except MergeErr JValue :=
  mergeObjects fuel parentConfiguration (some configurationJson)
    resolvedConfigurationFilePath propertyInheritanceTypes ["extends", "$schema"]

/-- `_annotateProperties`: recursively attach to every object-typed node the
annotation `{configurationFilePath: filePath, originalValues: {...node}}`.
In the source the parent's shallow copy is taken before the children are
annotated in place, but because the copy shares the child references the
observable final state is the bottom-up annotation modelled here.  `depth`
bounds the recursion of the model; it exceeds the nesting depth of every
value this development applies it to. -/
def annotateF (filePath : String) : Nat → JValue → JValue
  | 0, v => v
  | depth + 1, v =>
    match v with
    | .obj fields _ =>
      let fs := fields.map (fun kv => (kv.1, annotateF filePath depth kv.2))
      .obj fs (some (some filePath, fs))
    | .arr es _ =>
      let es2 := es.map (annotateF filePath depth)
      .arr es2 (some (some filePath, idxOv es2))
    | w => w

/-- The `originalValues` entry that `usePropertyValue`/`useParentPropertyValue`
record for property `k` contributed by side `x`: the side's own previously
recorded original value, when it has one. -/
def ovEntryFor (x : Option JValue) (k : String) : List (String × JValue) :=
  match getPropertyOriginalValue x k with
  | some w => [(k, w)]
  | none => []

/-!
Part 3: the claims.
-/

/-- Modelled from the spec sentence for claim C4, "attempt to load
`resolve(fallbackBaseFolder, projectRelativeFilePath)` using a fresh
visited-set (fallback resolution is an independent chain)": identical to
`loadWithCache` except that the rig fallback load receives an empty visited
set.  This definition follows the claim's words, for comparison with
`loadWithCache`, which follows the source. -/
def loadWithCacheFreshRig (fs : FS) : Nat → FPath → List FPath → LoadState → Option Rig →
    LoadResult × LoadState
  | 0, _, _, st, _ => (.outOfFuel, st)
  | fuel + 1, p, visited, st, rig =>
    match st.cache.lookup p with
    | some (.settled r) =>
      if visited.contains p then (.err (.cycle p), st) else (r, st)
    | some .pending =>
      if visited.contains p then (.err (.cycle p), st) else (.hang, st)
    | none =>
      let st1 : LoadState := { st with cache := (p, CacheState.pending) :: st.cache }
      if visited.contains p then (.err (.cycle p), st1)
      else
        let visited1 := p :: visited
        let st2 : LoadState := { st1 with reads := st1.reads + 1 }
        let inner : LoadResult × LoadState :=
          match fs.lookup p with
          | none =>
            match rig with
            | some rg =>
              if rg.rigFound then
                match loadWithCacheFreshRig fs fuel rg.candidate [] st2 none with
                | (.ok v, st3) => (.ok v, st3)
                | (.err e, st3) =>
                  if e.isNotExist then (.err (.notExist p), st3) else (.err e, st3)
                | (other, st3) => (other, st3)
              else (.err (.notExist p), st2)
            | none => (.err (.notExist p), st2)
          | some fd =>
            match fd.ext with
            | none => (.ok [p], st2)
            | some .unresolvable => (.err (.brokenExtends p), st2)
            | some (.resolved q) =>
              match loadWithCacheFreshRig fs fuel q visited1 st2 none with
              | (.ok chain, st3) => (.ok (p :: chain), st3)
              | (.err e, st3) =>
                if e.isNotExist then (.err (.brokenExtends p), st3) else (.err e, st3)
              | (other, st3) => (other, st3)
        (inner.1, { inner.2 with cache := settleCache inner.2.cache p inner.1 })

/-- Top-level load under the fresh-visited-set reading of the spec. -/
def loadTopFreshRig (fs : FS) (fuel : Nat) (p : FPath) (rig : Option Rig) :
    LoadResult × LoadState :=
  loadWithCacheFreshRig fs fuel p [] ⟨[], 0⟩ rig

/-- Claim C4 counterexample: with the primary file `"P"` absent, a rig found
whose candidate file `"R"` exists and whose `extends` resolves back to `"P"`,
the engine reports a cycle error naming `"P"` — possible only because the rig
load inherited the visited set of the primary attempt (which contains `"P"`).
Under the claim's fresh-visited-set semantics the identically shaped run
deadlocks on the pending cache entry for `"P"` instead, so the two semantics
are observably different and the claim, as stated, is false of the code. -/
theorem claim4_counterexample :
    (loadTop [("R", ⟨some (.resolved "P")⟩)] 10 "P" (some ⟨true, "R"⟩)).1
        = .err (.cycle "P")
    ∧ (loadTopFreshRig [("R", ⟨some (.resolved "P")⟩)] 10 "P" (some ⟨true, "R"⟩)).1
        = .hang
    ∧ (.err (.cycle "P") : LoadResult) ≠ .hang := by
  refine ⟨by decide, by decide, by decide⟩

/-- Claim C4 amended: whenever reading the primary configuration file fails
with a does-not-exist condition and a fallback (rig) provider is configured
and available, the loader attempts to load the rig candidate using the SAME
visited set as the primary attempt (which already contains the primary path)
— fallback resolution shares the primary attempt's cycle-detection chain; in
particular a rig candidate whose `extends` chain reaches the primary path
fails with the cycle error naming the primary path. -/
theorem claim4_shared_visited (fs : FS) (p rcand : FPath) (fd : FileData) (fuel : Nat)
    (h1 : fs.lookup p = none) (h2 : fs.lookup rcand = some fd)
    (h3 : fd.ext = some (.resolved p)) (h4 : rcand ≠ p) :
    (loadTop fs (fuel + 3) p (some ⟨true, rcand⟩)).1 = .err (.cycle p) := by
  have hb1 : (rcand == p) = false := by simp [h4]
  have hb2 : (p == rcand) = false := by simp [Ne.symm h4]
  simp [loadTop, loadTopFrom, loadWithCache, h1, h2, h3, h4, Ne.symm h4, hb1, hb2,
    List.lookup, List.contains, LoadErr.isNotExist]

/-- Claim C4 witness for the amended theorem, at the counterexample's input. -/
theorem claim4_shared_visited_witness :
    (loadTop [("R", ⟨some (.resolved "P")⟩)] 10 "P" (some ⟨true, "R"⟩)).1
      = .err (.cycle "P") :=
  claim4_shared_visited [("R", ⟨some (.resolved "P")⟩)] "P" "R"
    ⟨some (.resolved "P")⟩ 7 (by decide) (by decide) (by decide) (by decide)

/-- Claim C5 counterexample: the path `"p/c.json"` does not exist, so its
load fails with a not-exist error after one read; a second top-level call
against the same spec instance (same cache) observes the earlier failure from
the cache — the read counter stays at 1, so the load is NOT re-attempted from
scratch, contradicting the claim that a failure is not cached. -/
theorem claim5_counterexample :
    (loadTop [] 3 "p/c.json" none).1 = .err (.notExist "p/c.json")
    ∧ (loadTop [] 3 "p/c.json" none).2.reads = 1
    ∧ (loadTopFrom [] 3 "p/c.json" none (loadTop [] 3 "p/c.json" none).2).1
        = .err (.notExist "p/c.json")
    ∧ (loadTopFrom [] 3 "p/c.json" none (loadTop [] 3 "p/c.json" none).2).2.reads = 1 := by
  refine ⟨by decide, by decide, by decide, by decide⟩

/-- Claim C5 amended: a failed load's rejected promise remains in
`_configPromiseCache`, so a subsequent call against the same spec instance
that resolves to the same path returns the cached outcome unchanged — no
re-read, no re-attempt; the state (including the read counter) is untouched.
(This also covers cached successes.) -/
theorem claim5_failure_cached (fs : FS) (fuel : Nat) (p : FPath) (rig : Option Rig)
    (st : LoadState) (r : LoadResult)
    (h : st.cache.lookup p = some (.settled r)) :
    loadWithCache fs (fuel + 1) p [] st rig = (r, st) := by
  simp [loadWithCache, h, List.contains]

/-- Claim C5 witness for the amended theorem: the cached rejection of
`"p/c.json"` is returned as-is. -/
theorem claim5_failure_cached_witness :
    loadWithCache [] 7 "p/c.json" []
        ⟨[("p/c.json", CacheState.settled (.err (.notExist "p/c.json")))], 1⟩ none
      = (.err (.notExist "p/c.json"),
          ⟨[("p/c.json", CacheState.settled (.err (.notExist "p/c.json")))], 1⟩) :=
  claim5_failure_cached [] 6 "p/c.json" none _ _ (by decide)

/-- A path absent from a list is not contained in it (Bool form). -/
theorem contains_eq_false_of_not_mem {l : List FPath} {a : FPath} (h : a ∉ l) :
    l.contains a = false := by
  rw [← Bool.not_eq_true]; simpa [List.elem_iff] using h

/-- Inversion of a successful `chainStep`: the file exists and its `extends`
resolves to the target. -/
theorem chainStep_inv {fs : FS} {p t : FPath} (h : chainStep fs p = some t) :
    ∃ fd, fs.lookup p = some fd ∧ fd.ext = some (ExtRef.resolved t) := by
  unfold chainStep at h
  cases hfs : fs.lookup p with
  | none => simp [hfs] at h
  | some fd =>
    simp only [hfs] at h
    cases hext : fd.ext with
    | none => simp [hext] at h
    | some er =>
      cases er with
      | unresolvable => simp [hext] at h
      | resolved qq =>
        simp only [hext, Option.some.injEq] at h
        exact ⟨fd, rfl, by rw [hext, h]⟩

/-- Invariant run lemma for cycle detection: if from `p` the `extends` chain
passes through the fresh, pairwise-distinct paths of `rest` and then reaches
`t`, where `t` is among the already-visited paths (whose cache entries are
pending) or among the chain itself, then the load of `p` terminates with the
cycle error naming `t`: the frame that revisits `t` finds `t` in the visited
set — after the pending promise for its own path was cached, before any
pending promise is awaited — and throws instead of deadlocking. -/
theorem loadCycleRun (fs : FS) :
    ∀ (rest : List FPath) (p t : FPath) (visited : List FPath) (st : LoadState)
      (rig : Option Rig) (fuel : Nat),
      chainLinksB fs p rest t = true →
      (p :: rest).Nodup →
      (∀ q ∈ p :: rest, q ∉ visited ∧ st.cache.lookup q = none) →
      (∀ q ∈ visited, st.cache.lookup q = some .pending) →
      (t ∈ visited ∨ t ∈ p :: rest) →
      (loadWithCache fs (fuel + rest.length + 2) p visited st rig).1 = .err (.cycle t) := by
  intro rest
  induction rest with
  | nil =>
    intro p t visited st rig fuel hchain hnodup hfresh hpend ht
    have hstep : chainStep fs p = some t := by
      simpa [chainLinksB] using hchain
    obtain ⟨fd, hfs, hext⟩ := chainStep_inv hstep
    obtain ⟨hpv, hpc⟩ := hfresh p (List.mem_cons_self p [])
    have hcontp : visited.contains p = false := contains_eq_false_of_not_mem hpv
    rw [show fuel + ([] : List FPath).length + 2 = (fuel + 1) + 1 from by simp]
    rw [loadWithCache.eq_def]
    simp only [hpc, hcontp, hfs, hext, Bool.false_eq_true, if_false]
    rw [loadWithCache.eq_def]
    rcases ht with htv | htp
    · have htne : t ≠ p := fun h => hpv (h ▸ htv)
      have hlt : ((p, CacheState.pending) :: st.cache).lookup t = some CacheState.pending := by
        simp [List.lookup, beq_false_of_ne htne, hpend t htv]
      simp [hlt, htv, List.mem_cons_of_mem, LoadErr.isNotExist]
    · have htp2 : t = p := by simpa using htp
      subst htp2
      have hlt : ((t, CacheState.pending) :: st.cache).lookup t = some CacheState.pending := by
        simp [List.lookup]
      simp [hlt, LoadErr.isNotExist]
  | cons q rest ih =>
    intro p t visited st rig fuel hchain hnodup hfresh hpend ht
    have hchain2 : chainStep fs p = some q ∧ chainLinksB fs q rest t = true := by
      simpa [chainLinksB] using hchain
    obtain ⟨fd, hfs, hext⟩ := chainStep_inv hchain2.1
    obtain ⟨hpv, hpc⟩ := hfresh p (List.mem_cons_self p (q :: rest))
    have hcontp : visited.contains p = false := contains_eq_false_of_not_mem hpv
    have hpnotin : p ∉ q :: rest := (List.nodup_cons.mp hnodup).1
    have hfresh2 : ∀ x ∈ q :: rest, x ∉ p :: visited
        ∧ ((p, CacheState.pending) :: st.cache).lookup x = none := by
      intro x hx
      have hxp : x ≠ p := fun h => hpnotin (h ▸ hx)
      obtain ⟨hxv, hxc⟩ := hfresh x (List.mem_cons_of_mem p hx)
      refine ⟨?_, ?_⟩
      · intro hmem
        rcases List.mem_cons.mp hmem with h | h
        · exact hxp h
        · exact hxv h
      · simp [List.lookup, beq_false_of_ne hxp, hxc]
    have hpend2 : ∀ y ∈ p :: visited,
        ((p, CacheState.pending) :: st.cache).lookup y = some CacheState.pending := by
      intro y hy
      by_cases hyp : y = p
      · subst hyp; simp [List.lookup]
      · have hyv : y ∈ visited := by
          rcases List.mem_cons.mp hy with h | h
          · exact absurd h hyp
          · exact h
        simp [List.lookup, beq_false_of_ne hyp, hpend y hyv]
    have ht2 : t ∈ p :: visited ∨ t ∈ q :: rest := by
      rcases ht with h | h
      · exact Or.inl (List.mem_cons_of_mem p h)
      · rcases List.mem_cons.mp h with h1 | h1
        · exact Or.inl (h1 ▸ List.mem_cons_self p visited)
        · exact Or.inr h1
    have hnodup2 : (q :: rest).Nodup := (List.nodup_cons.mp hnodup).2
    have hih := ih q t (p :: visited)
      ⟨(p, CacheState.pending) :: st.cache, st.reads + 1⟩ none fuel
      hchain2.2 hnodup2 hfresh2 hpend2 ht2
    rw [show fuel + (q :: rest).length + 2 = (fuel + rest.length + 2) + 1 from by
      simp [List.length_cons]; omega]
    rw [loadWithCache.eq_def]
    simp only [hpc, hcontp, hfs, hext, Bool.false_eq_true, if_false]
    cases hres : loadWithCache fs (fuel + rest.length + 2) q (p :: visited)
        ⟨(p, CacheState.pending) :: st.cache, st.reads + 1⟩ none with
    | mk r s3 =>
      have hr : r = .err (.cycle t) := by
        have h0 := hih
        rw [hres] at h0
        exact h0
      subst hr
      simp [hres, LoadErr.isNotExist]

/-- Claim C1: for every configuration file whose `extends` chain resolves
(directly or transitively) back to an already-visited absolute path within
one top-level load, `loadConfigurationFileForProjectAsync` fails with the
cycle error naming the offending (revisited) path, and never hangs: the
visited-set membership check runs after the pending promise is cached but
before it is awaited, so a self-referential chain terminates with the error
rather than deadlocking on its own pending cache entry. -/
theorem claim1_cycle_detected (fs : FS) (p t : FPath) (rest : List FPath)
    (rig : Option Rig) (fuel : Nat)
    (hchain : chainLinksB fs p rest t = true)
    (hnodup : (p :: rest).Nodup)
    (ht : t ∈ p :: rest) :
    (loadTop fs (fuel + rest.length + 2) p rig).1 = .err (.cycle t)
    ∧ (loadTop fs (fuel + rest.length + 2) p rig).1 ≠ .hang := by
  have h := loadCycleRun fs rest p t [] ⟨[], 0⟩ rig fuel hchain hnodup
    (fun q _ => ⟨List.not_mem_nil q, rfl⟩)
    (fun q hq => absurd hq (List.not_mem_nil q)) (Or.inr ht)
  have h2 : (loadTop fs (fuel + rest.length + 2) p rig).1 = .err (.cycle t) := by
    simpa [loadTop, loadTopFrom] using h
  exact ⟨h2, by rw [h2]; simp⟩

/-- Claim C1 witness: the two-file loop `A extends B extends A` satisfies the
chain hypotheses and the load fails with the cycle error naming `A`. -/
theorem claim1_witness :
    chainLinksB [("A", ⟨some (.resolved "B")⟩), ("B", ⟨some (.resolved "A")⟩)]
        "A" ["B"] "A" = true
    ∧ ("A" :: ["B"]).Nodup
    ∧ (loadTop [("A", ⟨some (.resolved "B")⟩), ("B", ⟨some (.resolved "A")⟩)]
        3 "A" none).1 = .err (.cycle "A") :=
  ⟨by decide, by decide,
    (claim1_cycle_detected [("A", ⟨some (.resolved "B")⟩), ("B", ⟨some (.resolved "A")⟩)]
      "A" "A" ["B"] none 0 (by decide) (by decide) (by decide)).1⟩

/-- Inversion of a top-level not-exist failure: the only error satisfying
`isNotExistError` that can surface from `loadConfigurationFileForProjectAsync`
is the one for the originally requested path, and only when reading that path
failed: a not-exist failure of the rig fallback is swallowed and replaced by
the primary path's own not-exist error, and a not-exist failure of an
`extends` ancestor is rewrapped as a broken-extends error. -/
theorem loadTop_notExist_inv (fs : FS) (p : FPath) (rig : Option Rig) (fuel : Nat) (q : FPath)
    (h : (loadTop fs fuel p rig).1 = .err (.notExist q)) :
    q = p ∧ fs.lookup p = none := by
  cases fuel with
  | zero => simp [loadTop, loadTopFrom, loadWithCache] at h
  | succ n =>
    simp only [loadTop, loadTopFrom, loadWithCache, List.lookup, List.contains,
      List.elem] at h
    cases hfs : fs.lookup p with
    | some fd =>
      simp only [hfs] at h
      cases hext : fd.ext with
      | none => simp [hext] at h
      | some er =>
        cases er with
        | unresolvable => simp [hext] at h
        | resolved qq =>
          simp only [hext] at h
          cases hres : loadWithCache fs n qq (p :: [])
              ⟨(p, CacheState.pending) :: [], 1⟩ none with
          | mk r s3 =>
            simp only [hres] at h
            cases r with
            | ok chain => simp at h
            | err e =>
              cases he : e.isNotExist with
              | true => simp [he] at h
              | false =>
                simp [he] at h
                subst h
                simp [LoadErr.isNotExist] at he
            | hang => simp at h
            | outOfFuel => simp at h
    | none =>
      simp only [hfs] at h
      cases rig with
      | none =>
        simp at h
        exact ⟨h.symm, rfl⟩
      | some rg =>
        cases hrf : rg.rigFound with
        | false =>
          simp only [hrf] at h
          simp at h
          exact ⟨h.symm, rfl⟩
        | true =>
          simp only [hrf] at h
          cases hres : loadWithCache fs n rg.candidate (p :: [])
              ⟨(p, CacheState.pending) :: [], 1⟩ none with
          | mk r s3 =>
            simp only [hres] at h
            cases r with
            | ok chain => simp at h
            | err e =>
              cases he : e.isNotExist with
              | true =>
                simp only [he] at h
                simp at h
                exact ⟨h.symm, rfl⟩
              | false =>
                simp [he] at h
                subst h
                simp [LoadErr.isNotExist] at he
            | hang => simp at h
            | outOfFuel => simp at h

/-- Claim C2: `tryLoadConfigurationFileForProjectAsync` returns the absent
marker exactly when the load fails with a not-exist error, and such an error
can only be the originally requested path's own (arising because that file —
and, when a rig was consulted, its fallback — does not exist); every other
failure propagates out of tryLoad unchanged; in particular a not-exist
failure arising while resolving or loading a nested `extends` ancestor is
rewrapped as a broken-extends error and propagates out of tryLoad as a
failure rather than being converted to absence. -/
theorem claim2_tryload_absent (fs : FS) (p : FPath) (rig : Option Rig) :
    (∀ fuel q, (loadTop fs fuel p rig).1 = .err (.notExist q) →
      q = p ∧ fs.lookup p = none)
    ∧ (∀ fuel, tryLoadTop fs fuel p rig = .ok none ↔
        ∃ q, (loadTop fs fuel p rig).1 = .err (.notExist q))
    ∧ (∀ fuel e, (loadTop fs fuel p rig).1 = .err e → e.isNotExist = false →
        tryLoadTop fs fuel p rig = .err e)
    ∧ (∀ fuel fd r, fs.lookup p = some fd → fd.ext = some (.resolved r) →
        fs.lookup r = none → r ≠ p →
        (loadTop fs (fuel + 2) p rig).1 = .err (.brokenExtends p)
        ∧ tryLoadTop fs (fuel + 2) p rig = .err (.brokenExtends p)) := by
  refine ⟨fun fuel q h => loadTop_notExist_inv fs p rig fuel q h, ?_, ?_, ?_⟩
  · intro fuel
    constructor
    · intro h
      unfold tryLoadTop at h
      cases hl : (loadTop fs fuel p rig).1 with
      | ok v => rw [hl] at h; simp at h
      | err e =>
        rw [hl] at h
        cases e with
        | notExist qq => exact ⟨qq, rfl⟩
        | cycle _ => simp [LoadErr.isNotExist] at h
        | brokenExtends _ => simp [LoadErr.isNotExist] at h
      | hang => rw [hl] at h; simp at h
      | outOfFuel => rw [hl] at h; simp at h
    · rintro ⟨qq, hq⟩
      unfold tryLoadTop
      rw [hq]
      simp [LoadErr.isNotExist]
  · intro fuel e hl hne
    unfold tryLoadTop
    rw [hl]
    simp [hne]
  · intro fuel fd r h1 h2 h3 h4
    have hres : (loadTop fs (fuel + 2) p rig).1 = .err (.brokenExtends p) := by
      simp [loadTop, loadTopFrom, loadWithCache, h1, h2, h3, h4, Ne.symm h4,
        beq_false_of_ne h4, beq_false_of_ne (Ne.symm h4),
        List.lookup, List.contains, LoadErr.isNotExist]
    refine ⟨hres, ?_⟩
    unfold tryLoadTop
    rw [hres]
    simp [LoadErr.isNotExist]

/-- Claim C2 witness: a file `c` whose `extends` resolves to the missing path
`d` makes tryLoad fail with the broken-extends error (the nested not-exist is
not converted to absence); a missing primary `x` makes tryLoad return the
absent marker. -/
theorem claim2_witness :
    tryLoadTop [("c", ⟨some (.resolved "d")⟩)] 5 "c" none = .err (.brokenExtends "c")
    ∧ tryLoadTop [] 5 "x" none = .ok none :=
  ⟨((claim2_tryload_absent [("c", ⟨some (.resolved "d")⟩)] "c" none).2.2.2 3
      ⟨some (.resolved "d")⟩ "d" (by decide) (by decide) (by decide) (by decide)).2,
    ((claim2_tryload_absent [] "x" none).2.1 5).mpr ⟨"x", by decide⟩⟩

/-- First-match lookup distributes over append via orElse. -/
theorem lookup_append_jv (l1 l2 : List (String × JValue)) (k : String) :
    (l1 ++ l2).lookup k =
      match l1.lookup k with
      | some v => some v
      | none => l2.lookup k := by
  induction l1 with
  | nil => simp [List.lookup]
  | cons hd tl ih =>
    by_cases hk : k = hd.1
    · subst hk
      simp [List.lookup]
    · simp [List.lookup, beq_false_of_ne hk, ih]

/-- A key that looks up to nothing is not among the keys. -/
theorem lookup_none_not_mem_keys {a : List (String × JValue)} {k : String}
    (h : a.lookup k = none) : k ∉ a.map Prod.fst := by
  induction a with
  | nil => simp
  | cons hd tl ih =>
    by_cases hk : k = hd.1
    · subst hk; simp [List.lookup] at h
    · simp only [List.lookup, beq_false_of_ne hk] at h
      simp only [List.map_cons, List.mem_cons]
      rintro (h1 | h1)
      · exact hk h1
      · exact ih h h1

/-- Lookup of `k` after dropping the entries keyed by `keys`: `none` when `k`
is dropped, the unfiltered lookup otherwise. -/
theorem lookup_dropKeys (b : List (String × JValue)) (keys : List String) (k : String) :
    (dropKeys keys b).lookup k = if k ∈ keys then none else b.lookup k := by
  induction b with
  | nil => simp [dropKeys, List.lookup]
  | cons hd tl ih =>
    by_cases hmem : hd.1 ∈ keys
    · by_cases hk : k = hd.1
      · subst hk
        simp [dropKeys, hmem, ih]
      · simp only [dropKeys, hmem, if_true, ih]
        split
        · rfl
        · simp [List.lookup, beq_false_of_ne hk]
    · by_cases hk : k = hd.1
      · subst hk
        simp [dropKeys, hmem, List.lookup]
      · simp [dropKeys, hmem, List.lookup, beq_false_of_ne hk, ih]

/-- Lookup in the map-side of `spreadCombine`: each key of `a` is present,
carrying `b`'s value when `b` has the key, `a`'s otherwise. -/
theorem lookup_spread_map (a b : List (String × JValue)) (k : String) :
    (a.map (fun kv => (kv.1, ((b.lookup kv.1).getD kv.2)))).lookup k
      = match a.lookup k with
        | some av => some ((b.lookup k).getD av)
        | none => none := by
  induction a with
  | nil => simp [List.lookup]
  | cons hd tl ih =>
    by_cases hk : k = hd.1
    · subst hk
      simp [List.lookup]
    · simp [List.lookup, beq_false_of_ne hk, ih]

/-- The lookup law of the append-policy annotation combination
`{...parentOriginalValues, ...childOriginalValues}`: a key present on both
sides yields the child's entry (child precedence), a key present on one side
yields that side's entry. -/
theorem spreadCombine_lookup (a b : List (String × JValue)) (k : String) :
    (spreadCombine a b).lookup k =
      match a.lookup k with
      | some av => some ((b.lookup k).getD av)
      | none => b.lookup k := by
  unfold spreadCombine
  rw [lookup_append_jv, lookup_spread_map, lookup_dropKeys]
  cases ha : a.lookup k with
  | some av => simp
  | none => simp [lookup_none_not_mem_keys ha]

def claim3parent : JValue :=
  annotateF "parent.json" 3 (.obj [("tags", .arr [.num 1, .num 2] none)] none)

def claim3child : JValue :=
  annotateF "child.json" 3 (.obj [("tags", .arr [.num 3, .num 4] none)] none)

def claim3merged : Except MergeErr JValue :=
  mergeObjects 2 (some claim3parent) (some claim3child) "child.json"
    [("tags", Inheritance.append)] ["extends", "$schema"]

/-- Claim C3 counterexample: merging parent `{"tags": [1, 2]}` (annotated
from parent.json) with child `{"tags": [3, 4]}` (annotated from child.json)
under the append policy yields `[1, 2, 3, 4]`, but the merged array's
provenance record is `{"0": 3, "1": 4}` — the child's index-keyed entries
shadow the parent's — so the lookup at index "0" recovers 3 while the merged
array's element at position 0 is 1, a parent element, and the lookup at index
"2" (the merged position that actually holds 3) recovers nothing: no
index-position-consistent lookup on the merged array recovers the correct
source value for every element, refuting the claimed per-element recovery. -/
theorem claim3_counterexample :
    claim3merged = .ok (.obj
        [("tags", .arr [.num 1, .num 2, .num 3, .num 4]
          (some (none, [("0", .num 3), ("1", .num 4)])))]
        (some (some "child.json", [])))
    ∧ claim3merged.map (fun r => getFieldOpt (getFieldOpt (some r) "tags") "0")
        = .ok (some (.num 1))
    ∧ claim3merged.map (fun r => getPropertyOriginalValue (getFieldOpt (some r) "tags") "0")
        = .ok (some (.num 3))
    ∧ claim3merged.map (fun r => getPropertyOriginalValue (getFieldOpt (some r) "tags") "2")
        = .ok none
    ∧ (JValue.num 1) ≠ (JValue.num 3) := by
  refine ⟨rfl, rfl, rfl, rfl, ?_⟩
  intro h
  simp at h

/-- Claim C3 amended: under the append policy, merging a parent and a child
whose values for the property are annotated arrays yields the parent's
elements followed by the child's elements in order, and the result array
carries a provenance record with no source file whose `originalValues` is
`{...parentOriginalValues, ...childOriginalValues}` — both sides' prior
annotations combined with the child's entries taking precedence on key
collision.  Consequently `getPropertyOriginalValue` on the merged array at a
given key recovers the child's recorded original value when the child has an
entry at that key (shadowing the parent's) and the parent's entry otherwise:
recovery is per contributing side's own index positions, not per merged
array position. -/
theorem claim3_append_semantics (fuel : Nat) (filePath : String)
    (pe ce : List JValue) (pOv cOv : List (String × JValue))
    (pfp cfp : Option String)
    (annP annC : Option (Option String × List (String × JValue))) :
    mergeObjects (fuel + 1)
        (some (.obj [("tags", .arr pe (some (pfp, pOv)))] annP))
        (some (.obj [("tags", .arr ce (some (cfp, cOv)))] annC))
        filePath [("tags", Inheritance.append)] ["extends", "$schema"]
      = .ok (.obj [("tags", .arr (pe ++ ce) (some (none, spreadCombine pOv cOv)))]
          (some (some filePath, [])))
    ∧ ∀ (k : String),
        (spreadCombine pOv cOv).lookup k =
          match pOv.lookup k with
          | some av => some ((cOv.lookup k).getD av)
          | none => cOv.lookup k := by
  refine ⟨?_, fun k => spreadCombine_lookup pOv cOv k⟩
  rfl

/-- Claim C6: for every property where exactly one of the child and parent
values is defined, the defined side's value becomes the merged value and its
recorded original value is carried into the result's provenance, regardless
of the configured inheritance policy — in particular a custom inheritance
function is never invoked (the result is the same for every function `f`):
the one-side-defined short-circuit applies before any policy-specific
logic. -/
theorem claim6_single_side_wins (fuel : Nat) (filePath : String) (k : String)
    (v : JValue) (pol : Inheritance)
    (annP annC : Option (Option String × List (String × JValue)))
    (hk : parseMergeBehaviorKey k = none) :
    mergeObjects (fuel + 1) (some (.obj [] annP)) (some (.obj [(k, v)] annC))
        filePath [(k, pol)] []
      = .ok (.obj [(k, v)]
          (some (some filePath, ovEntryFor (some (.obj [(k, v)] annC)) k)))
    ∧ mergeObjects (fuel + 1) (some (.obj [(k, v)] annP)) (some (.obj [] annC))
        filePath [(k, pol)] []
      = .ok (.obj [(k, v)]
          (some (some filePath, ovEntryFor (some (.obj [(k, v)] annP)) k))) := by
  constructor
  · cases hov : getPropertyOriginalValue (some (.obj [(k, v)] annC)) k with
    | none =>
      simp [mergeObjects, gatherDirectives, resolveProps, keysOfOpt, keysOf,
        dedupFirst, hk, getFieldOpt, getField, List.lookup, ovEntryFor, hov, Except.map]
    | some w =>
      simp [mergeObjects, gatherDirectives, resolveProps, keysOfOpt, keysOf,
        dedupFirst, hk, getFieldOpt, getField, List.lookup, ovEntryFor, hov, Except.map]
  · cases hov : getPropertyOriginalValue (some (.obj [(k, v)] annP)) k with
    | none =>
      simp [mergeObjects, gatherDirectives, resolveProps, keysOfOpt, keysOf,
        dedupFirst, hk, getFieldOpt, getField, List.lookup, ovEntryFor, hov, Except.map]
    | some w =>
      simp [mergeObjects, gatherDirectives, resolveProps, keysOfOpt, keysOf,
        dedupFirst, hk, getFieldOpt, getField, List.lookup, ovEntryFor, hov, Except.map]

/-- Claim C6 witness: at the concrete property "prop" with a custom
inheritance function, the child-defined side wins and the function's output
is nowhere in the result. -/
theorem claim6_witness :
    parseMergeBehaviorKey "prop" = none
    ∧ mergeObjects 1
        (some (.obj [] none))
        (some (.obj [("prop", .num 1)] (some (some "c.json", [("prop", .num 1)]))))
        "f.json" [("prop", Inheritance.custom (fun _ _ => .null))] []
      = .ok (.obj [("prop", .num 1)] (some (some "f.json", [("prop", .num 1)]))) :=
  ⟨by decide,
    (claim6_single_side_wins 0 "f.json" "prop" (.num 1)
      (Inheritance.custom (fun _ _ => .null)) none
      (some (some "c.json", [("prop", .num 1)])) (by decide)).1⟩

/-- Claim C10: a child property whose value is explicitly null counts as
defined — only `undefined` marks absence — so under the (default) replace
policy a null child value wins over any defined parent value and the merged
property is null; only omitting the property from the child lets the parent
value through; and a null child value also wins through the one-side-defined
short-circuit when the parent omits the property. -/
theorem claim10_null_defined (fuel : Nat) (filePath : String) (k : String)
    (pv : JValue)
    (annP annC : Option (Option String × List (String × JValue)))
    (hk : parseMergeBehaviorKey k = none) :
    mergeObjects (fuel + 1) (some (.obj [(k, pv)] annP)) (some (.obj [(k, .null)] annC))
        filePath [] []
      = .ok (.obj [(k, .null)]
          (some (some filePath, ovEntryFor (some (.obj [(k, .null)] annC)) k)))
    ∧ mergeObjects (fuel + 1) (some (.obj [(k, pv)] annP)) (some (.obj [] annC))
        filePath [] []
      = .ok (.obj [(k, pv)]
          (some (some filePath, ovEntryFor (some (.obj [(k, pv)] annP)) k)))
    ∧ mergeObjects (fuel + 1) (some (.obj [] annP)) (some (.obj [(k, .null)] annC))
        filePath [] []
      = .ok (.obj [(k, .null)]
          (some (some filePath, ovEntryFor (some (.obj [(k, .null)] annC)) k))) := by
  refine ⟨?_, ?_, ?_⟩
  · cases hov : getPropertyOriginalValue (some (.obj [(k, .null)] annC)) k with
    | none =>
      simp [mergeObjects, gatherDirectives, resolveProps, keysOfOpt, keysOf, dedupFirst,
        hk, getFieldOpt, getField, List.lookup, ovEntryFor, hov, Except.map,
        isArrOpt, isNullOpt]
    | some w =>
      simp [mergeObjects, gatherDirectives, resolveProps, keysOfOpt, keysOf, dedupFirst,
        hk, getFieldOpt, getField, List.lookup, ovEntryFor, hov, Except.map,
        isArrOpt, isNullOpt]
  · cases hov : getPropertyOriginalValue (some (.obj [(k, pv)] annP)) k with
    | none =>
      simp [mergeObjects, gatherDirectives, resolveProps, keysOfOpt, keysOf, dedupFirst,
        hk, getFieldOpt, getField, List.lookup, ovEntryFor, hov, Except.map]
    | some w =>
      simp [mergeObjects, gatherDirectives, resolveProps, keysOfOpt, keysOf, dedupFirst,
        hk, getFieldOpt, getField, List.lookup, ovEntryFor, hov, Except.map]
  · cases hov : getPropertyOriginalValue (some (.obj [(k, .null)] annC)) k with
    | none =>
      simp [mergeObjects, gatherDirectives, resolveProps, keysOfOpt, keysOf, dedupFirst,
        hk, getFieldOpt, getField, List.lookup, ovEntryFor, hov, Except.map]
    | some w =>
      simp [mergeObjects, gatherDirectives, resolveProps, keysOfOpt, keysOf, dedupFirst,
        hk, getFieldOpt, getField, List.lookup, ovEntryFor, hov, Except.map]

/-- Claim C10 witness: a null child value for "opt" beats the parent's 42;
omitting "opt" from the child lets 42 through. -/
theorem claim10_witness :
    parseMergeBehaviorKey "opt" = none
    ∧ mergeObjects 1
        (some (.obj [("opt", .num 42)] (some (some "p.json", [("opt", .num 42)]))))
        (some (.obj [("opt", .null)] (some (some "c.json", [("opt", .null)]))))
        "c.json" [] []
      = .ok (.obj [("opt", .null)] (some (some "c.json", [("opt", .null)])))
    ∧ mergeObjects 1
        (some (.obj [("opt", .num 42)] (some (some "p.json", [("opt", .num 42)]))))
        (some (.obj [] (some (some "c.json", []))))
        "c.json" [] []
      = .ok (.obj [("opt", .num 42)] (some (some "c.json", [("opt", .num 42)]))) :=
  ⟨by decide,
    (claim10_null_defined 0 "c.json" "opt" (.num 42)
      (some (some "p.json", [("opt", .num 42)]))
      (some (some "c.json", [("opt", .null)])) (by decide)).1,
    ((claim10_null_defined 0 "c.json" "opt" (.num 42)
      (some (some "p.json", [("opt", .num 42)]))
      (some (some "c.json", []))) (by decide)).2.1⟩

def claim7parent : JValue :=
  annotateF "p.json" 3 (.obj [("o", .obj [("a", .num 1), ("b", .num 2)] none)] none)

def claim7merge (child : JValue) : Except MergeErr JValue :=
  mergeObjects 3 (some claim7parent) (some (annotateF "c.json" 3 child)) "c.json"
    [("o", Inheritance.merge)] ["extends", "$schema"]

/-- Claim C7 counterexample: under the merge policy with both sides defined,
a child value of 0 — a primitive, neither null nor an object nor an array —
does NOT make the merge fail: the primitive check in the source is
`propertyValue && typeof propertyValue !== 'object'`, so a falsy primitive
(0, false, empty string) passes it and the merge succeeds, treating the
falsy side as an empty object; this refutes the claim that the merge fails
whenever either side is a primitive. -/
theorem claim7_counterexample :
    typeofIsObject (some (.num 0)) = false
    ∧ isNullOpt (some (.num 0)) = false
    ∧ claim7merge (.obj [("o", .num 0)] none)
        = .ok (.obj
            [("o", .obj [("a", .num 1), ("b", .num 2)]
              (some (some "c.json", [("a", .num 1), ("b", .num 2)])))]
            (some (some "c.json", []))) := by
  refine ⟨rfl, rfl, rfl⟩

/-- Claim C7 amended: for a property merged under the merge policy with both
sides defined: if either side is null the merge fails with the null-value
inheritance error; if either side is a TRUTHY primitive the merge fails with
the primitive inheritance error, while a falsy primitive (such as 0) passes
the check and is merged as though it were an empty object; if either side is
an array the merge fails; and when both sides are plain keyed objects the
merge algorithm is applied recursively, so parent `{a: 1, b: 2}` merged with
child `{b: 3, c: 4}` yields `{a: 1, b: 3, c: 4}`. -/
theorem claim7_merge_policy :
    claim7merge (.obj [("o", .obj [("b", .num 3), ("c", .num 4)] none)] none)
      = .ok (.obj
          [("o", .obj [("a", .num 1), ("b", .num 3), ("c", .num 4)]
            (some (some "c.json", [("a", .num 1), ("b", .num 3), ("c", .num 4)])))]
          (some (some "c.json", [])))
    ∧ claim7merge (.obj [("o", .null)] none) = .error (.mergeNullValue "o")
    ∧ claim7merge (.obj [("o", .num 5)] none) = .error (.mergePrimitive "o")
    ∧ claim7merge (.obj [("o", .str "x")] none) = .error (.mergePrimitive "o")
    ∧ claim7merge (.obj [("o", .arr [.num 1] none)] none) = .error (.mergeArray "o")
    ∧ claim7merge (.obj [("o", .num 0)] none)
        = .ok (.obj
            [("o", .obj [("a", .num 1), ("b", .num 2)]
              (some (some "c.json", [("a", .num 1), ("b", .num 2)])))]
            (some (some "c.json", []))) := by
  refine ⟨rfl, rfl, rfl, rfl, rfl, rfl⟩

def claim8merge (parent : Option JValue) (child : JValue) : Except MergeErr JValue :=
  mergeObjects 2 parent (some (annotateF "c.json" 3 child)) "c.json"
    [] ["extends", "$schema"]

/-- Claim C8 counterexample: a `$x.mergeBehavior` directive whose target
property `x` holds null does NOT fail the merge: the source validates the
target with `typeof value !== 'object'` and `typeof null === 'object'`, so a
null-valued target — which is not an object or array — passes directive
validation, and with behavior "replace" the merge succeeds with `x` null.
This refutes the claim that a directive whose target is not an object/array
fails the merge. -/
theorem claim8_counterexample :
    typeofIsObject (some .null) = true
    ∧ isArrOpt (some .null) = false
    ∧ claim8merge
        (some (annotateF "p.json" 3 (.obj [("x", .arr [.str "b"] none)] none)))
        (.obj [("x", .null), ("$x.mergeBehavior", .str "replace")] none)
      = .ok (.obj [("x", .null)] (some (some "c.json", [("x", .null)]))) := by
  refine ⟨rfl, rfl, rfl⟩

/-- Claim C8 amended: a sibling directive key `$<name>.mergeBehavior` is
excluded from normal merging and overrides the policy for `<name>`, matched
case-insensitively against append/merge/replace: a child
`{"tags": ["a"], "$tags.mergeBehavior": "append"}` merged against a parent
`{"tags": ["b"]}` yields `["b", "a"]`, and an uppercase "REPLACE" directive
makes the child's array replace the parent's.  A directive whose target
property is missing from the child, whose value is not a string, whose
target value is a primitive (string, number, boolean — note a null target
passes the typeof-object check), or whose value is an unknown keyword fails
the merge, each with its own distinct error. -/
theorem claim8_directives :
    claim8merge
        (some (annotateF "p.json" 3 (.obj [("tags", .arr [.str "b"] none)] none)))
        (.obj [("tags", .arr [.str "a"] none), ("$tags.mergeBehavior", .str "append")] none)
      = .ok (.obj
          [("tags", .arr [.str "b", .str "a"] (some (none, [("0", .str "a")])))]
          (some (some "c.json", [])))
    ∧ claim8merge
        (some (annotateF "p.json" 3 (.obj [("x", .arr [.str "b"] none)] none)))
        (.obj [("x", .arr [.str "a"] none), ("$x.mergeBehavior", .str "REPLACE")] none)
      = .ok (.obj
          [("x", .arr [.str "a"] (some (some "c.json", [("0", .str "a")])))]
          (some (some "c.json",
            [("x", .arr [.str "a"] (some (some "c.json", [("0", .str "a")])))])))
    ∧ claim8merge none (.obj [("$tags.mergeBehavior", .str "append")] none)
      = .error (.directiveTargetMissing "$tags.mergeBehavior")
    ∧ claim8merge none
        (.obj [("tags", .arr [.str "a"] none), ("$tags.mergeBehavior", .num 5)] none)
      = .error (.directiveNotString "$tags.mergeBehavior")
    ∧ claim8merge none
        (.obj [("tags", .str "hello"), ("$tags.mergeBehavior", .str "append")] none)
      = .error (.directiveTargetNotObject "$tags.mergeBehavior")
    ∧ claim8merge none
        (.obj [("tags", .arr [.str "a"] none), ("$tags.mergeBehavior", .str "concat")] none)
      = .error (.directiveUnknownBehavior "$tags.mergeBehavior" "concat") := by
  refine ⟨rfl, rfl, rfl, rfl, rfl, rfl⟩

/-- The key names that survive the ignored-properties filter, in order. -/
def keepKeys (ign : List String) : List String → List String
  | [] => []
  | k :: rest => if k ∈ ign then keepKeys ign rest else k :: keepKeys ign rest

theorem keepKeys_subset {ign ks : List String} {x : String}
    (h : x ∈ keepKeys ign ks) : x ∈ ks := by
  induction ks with
  | nil => cases h
  | cons k rest ih =>
    by_cases hk : k ∈ ign
    · simp only [keepKeys, hk, if_true] at h
      exact List.mem_cons_of_mem k (ih h)
    · simp only [keepKeys, hk, if_false] at h
      rcases List.mem_cons.mp h with h1 | h1
      · exact h1 ▸ List.mem_cons_self k rest
      · exact List.mem_cons_of_mem k (ih h1)

theorem mem_keepKeys {ign ks : List String} {x : String}
    (h1 : x ∈ ks) (h2 : x ∉ ign) : x ∈ keepKeys ign ks := by
  induction ks with
  | nil => cases h1
  | cons k rest ih =>
    rcases List.mem_cons.mp h1 with h | h
    · subst h
      simp [keepKeys, h2]
    · by_cases hk : k ∈ ign
      · simpa [keepKeys, hk] using ih h
      · simp only [keepKeys, hk, if_false]
        exact List.mem_cons_of_mem k (ih h)

theorem keepKeys_nodup {ign ks : List String} (h : ks.Nodup) :
    (keepKeys ign ks).Nodup := by
  induction ks with
  | nil => exact List.nodup_nil
  | cons k rest ih =>
    obtain ⟨hk, hrest⟩ := List.nodup_cons.mp h
    by_cases hmem : k ∈ ign
    · simpa [keepKeys, hmem] using ih hrest
    · simp only [keepKeys, hmem, if_false]
      exact List.nodup_cons.mpr ⟨fun hc => hk (keepKeys_subset hc), ih hrest⟩

/-- `dedupFirst` is the identity on a duplicate-free list disjoint from the
already-seen keys. -/
theorem dedupFirst_eq_self (seen ks : List String) (h1 : ks.Nodup)
    (h2 : ∀ x ∈ ks, x ∉ seen) : dedupFirst seen ks = ks := by
  induction ks generalizing seen with
  | nil => rfl
  | cons k rest ih =>
    obtain ⟨hk, hrest⟩ := List.nodup_cons.mp h1
    have hks : k ∉ seen := h2 k (List.mem_cons_self k rest)
    simp only [dedupFirst, hks, if_false]
    congr 1
    refine ih (k :: seen) hrest ?_
    intro x hx
    intro hmem
    rcases List.mem_cons.mp hmem with h | h
    · exact hk (h ▸ hx)
    · exact h2 x (List.mem_cons_of_mem k hx) h

/-- The first pass of `_mergeObjects` on a child without directive keys:
ignored keys are skipped, the rest survive in order, no behavior overrides. -/
theorem gatherDirectives_no_directives (current : Option JValue) (ign ks : List String)
    (h : ∀ k ∈ ks, parseMergeBehaviorKey k = none) :
    gatherDirectives current ign ks = .ok (keepKeys ign ks, []) := by
  induction ks with
  | nil => rfl
  | cons k rest ih =>
    have hk := h k (List.mem_cons_self k rest)
    have ihh := ih (fun x hx => h x (List.mem_cons_of_mem k hx))
    by_cases hig : k ∈ ign
    · simp [gatherDirectives, hig, keepKeys, ihh]
    · simp [gatherDirectives, hig, hk, keepKeys, ihh, Except.map]

theorem lookup_isSome_of_mem_keys {fields : List (String × JValue)} {k : String}
    (h : k ∈ fields.map Prod.fst) : (fields.lookup k).isSome = true := by
  induction fields with
  | nil => simp at h
  | cons hd tl ih =>
    by_cases hk : k = hd.1
    · subst hk; simp [List.lookup]
    · simp only [List.map_cons, List.mem_cons] at h
      rcases h with h | h
      · exact absurd h hk
      · simp [List.lookup, beq_false_of_ne hk, ih h]

/-- The second pass of `_mergeObjects` with an absent parent: every resolved
property short-circuits to the child's value, recording the child's original
value in the result provenance. -/
theorem resolveProps_no_parent (recm : Option JValue → Option JValue → Except MergeErr JValue)
    (cur : JValue) (behaviors configured : List (String × Inheritance)) (ks : List String)
    (h : ∀ k ∈ ks, (getField cur k).isSome = true) :
    resolveProps recm none (some cur) behaviors configured ks
      = .ok (ks.filterMap (fun k => (getField cur k).map (fun v => (k, v))),
             ks.filterMap (fun k => (getPropertyOriginalValue (some cur) k).map
               (fun w => (k, w)))) := by
  induction ks with
  | nil => rfl
  | cons k rest ih =>
    have hk := h k (List.mem_cons_self k rest)
    obtain ⟨v, hv⟩ := Option.isSome_iff_exists.mp hk
    have ihh := ih (fun x hx => h x (List.mem_cons_of_mem k hx))
    cases hov : getPropertyOriginalValue (some cur) k with
    | none =>
      simp [resolveProps, getFieldOpt, hv, hov, ihh, List.filterMap_cons]
    | some w =>
      simp [resolveProps, getFieldOpt, hv, hov, ihh, List.filterMap_cons]

/-- Restricting the surviving key names through the child's own fields
reconstructs exactly the child's non-ignored fields, in order. -/
theorem filterMap_keepKeys_fields (fields : List (String × JValue)) (ign : List String)
    (hnd : (fields.map Prod.fst).Nodup) :
    (keepKeys ign (fields.map Prod.fst)).filterMap
        (fun k => (fields.lookup k).map (fun v => (k, v)))
      = dropKeys ign fields := by
  induction fields with
  | nil => rfl
  | cons hd tl ih =>
    have hnd2 : (hd.1 :: tl.map Prod.fst).Nodup := hnd
    obtain ⟨hk0, htl⟩ := List.nodup_cons.mp hnd2
    have hcongr : (keepKeys ign (tl.map Prod.fst)).filterMap
          (fun k => (((hd :: tl).lookup k).map (fun v => (k, v))))
        = (keepKeys ign (tl.map Prod.fst)).filterMap
          (fun k => ((tl.lookup k).map (fun v => (k, v)))) := by
      refine List.filterMap_congr ?_
      intro x hx
      have hxtl : x ∈ tl.map Prod.fst := keepKeys_subset hx
      have hxne : x ≠ hd.1 := fun h => hk0 (h ▸ hxtl)
      simp [List.lookup, beq_false_of_ne hxne]
    by_cases hmem : hd.1 ∈ ign
    · simp only [List.map_cons, keepKeys, hmem, if_true, dropKeys]
      rw [hcongr, ih htl]
    · have hf : Option.map (fun v => ((hd.1 : String), v)) (List.lookup hd.1 (hd :: tl))
          = some hd := by
        simp [List.lookup]
      simp only [List.map_cons, keepKeys, hmem, if_false, List.filterMap_cons, hf,
        dropKeys]
      rw [hcongr, ih htl]

/-- Lookup misses entirely in a key-restricted map when the key is outside
the restriction set. -/
theorem lookup_restrict_none (ov : List (String × JValue)) (ks : List String)
    (k : String) (hk : k ∉ ks) :
    (ks.filterMap (fun x => (ov.lookup x).map (fun w => (x, w)))).lookup k = none := by
  induction ks with
  | nil => rfl
  | cons x rest ih =>
    have hxk : k ≠ x := fun h => hk (h ▸ List.mem_cons_self x rest)
    have hkr : k ∉ rest := fun h => hk (List.mem_cons_of_mem x h)
    cases hov : ov.lookup x with
    | none => simpa [List.filterMap_cons, hov] using ih hkr
    | some w =>
      simp [List.filterMap_cons, hov, List.lookup, beq_false_of_ne hxk, ih hkr]

/-- Lookup in a key-restricted map agrees with the unrestricted map on the
restriction set (when the restriction set has no duplicates). -/
theorem lookup_restrict (ov : List (String × JValue)) (ks : List String)
    (k : String) (hnd : ks.Nodup) (hk : k ∈ ks) :
    (ks.filterMap (fun x => (ov.lookup x).map (fun w => (x, w)))).lookup k
      = ov.lookup k := by
  induction ks with
  | nil => cases hk
  | cons x rest ih =>
    obtain ⟨hx, hrest⟩ := List.nodup_cons.mp hnd
    rcases List.mem_cons.mp hk with h | h
    · subst h
      cases hov : ov.lookup k with
      | none =>
        simp [List.filterMap_cons, hov, lookup_restrict_none ov rest k hx]
      | some w =>
        simp [List.filterMap_cons, hov, List.lookup]
    · have hxk : k ≠ x := fun hh => hx (hh ▸ h)
      cases hov : ov.lookup x with
      | none => simpa [List.filterMap_cons, hov] using ih hrest h
      | some w =>
        simp [List.filterMap_cons, hov, List.lookup, beq_false_of_ne hxk, ih hrest h]

/-- The spec-side result for a configuration file with no `extends`
(modelling the spec sentence "result equals the parsed+annotated file itself,
after path-property rewriting, unchanged by merge logic"): the child value
itself. -/
def specNoExtendsResult (child : JValue) : JValue := child

/-- The code-side result of merging a no-extends child against an absent
parent: a fresh object holding the child's non-ignored fields (same values,
same order) whose provenance restricts the child's recorded original values
to the surviving keys. -/
def noExtendsMergeResult (filePath : String) (fields ov : List (String × JValue))
    (ign : List String) : JValue :=
  .obj (dropKeys ign fields)
    (some (some filePath,
      (keepKeys ign (fields.map Prod.fst)).filterMap
        (fun k => (ov.lookup k).map (fun w => (k, w)))))

/-- Claim C9: for a configuration file with no `extends` property (and no
merge directives), running the merge step with an absent parent leaves the
configuration's properties and provenance unchanged relative to the
parse-and-annotate output: the result holds exactly the child's non-ignored
fields with identical values (so `getField` agrees with the child on every
non-synthetic key), and `getPropertyOriginalValue` on the result agrees with
the child's own recorded original values on every surviving property. -/
theorem claim9_no_extends_identity (fuel : Nat) (filePath : String)
    (fields ov : List (String × JValue)) (fp : Option String)
    (configured : List (String × Inheritance)) (ign : List String)
    (hdir : ∀ k ∈ fields.map Prod.fst, parseMergeBehaviorKey k = none)
    (hnd : (fields.map Prod.fst).Nodup) :
    mergeObjects (fuel + 1) none (some (.obj fields (some (fp, ov)))) filePath
        configured ign
      = .ok (noExtendsMergeResult filePath fields ov ign)
    ∧ (∀ k, k ∉ ign →
        getField (noExtendsMergeResult filePath fields ov ign) k
          = getField (specNoExtendsResult (.obj fields (some (fp, ov)))) k)
    ∧ (∀ k, k ∉ ign → k ∈ fields.map Prod.fst →
        getPropertyOriginalValue (some (noExtendsMergeResult filePath fields ov ign)) k
          = getPropertyOriginalValue
              (some (specNoExtendsResult (.obj fields (some (fp, ov))))) k) := by
  refine ⟨?_, ?_, ?_⟩
  · have hks : ∀ k ∈ keepKeys ign (fields.map Prod.fst),
        (getField (JValue.obj fields (some (fp, ov))) k).isSome = true :=
      fun k hk => lookup_isSome_of_mem_keys (keepKeys_subset hk)
    have h1 := gatherDirectives_no_directives (some (.obj fields (some (fp, ov)))) ign
      (fields.map Prod.fst) hdir
    have h2 := resolveProps_no_parent (fun pp cc => mergeObjects fuel pp cc filePath [] [])
      (.obj fields (some (fp, ov))) [] configured (keepKeys ign (fields.map Prod.fst)) hks
    have hded : dedupFirst [] (keepKeys ign (fields.map Prod.fst))
        = keepKeys ign (fields.map Prod.fst) :=
      dedupFirst_eq_self [] (keepKeys ign (fields.map Prod.fst))
        (keepKeys_nodup hnd) (by simp)
    have hf4 := filterMap_keepKeys_fields fields ign hnd
    simp [mergeObjects, keysOfOpt, keysOf, h1, h2, hded, getField,
      getPropertyOriginalValue, hf4, noExtendsMergeResult]
  · intro k hk
    simp only [noExtendsMergeResult, specNoExtendsResult, getField]
    rw [lookup_dropKeys]
    simp [hk]
  · intro k hk hmemk
    simp only [noExtendsMergeResult, specNoExtendsResult, getPropertyOriginalValue]
    exact lookup_restrict ov (keepKeys ign (fields.map Prod.fst)) k
      (keepKeys_nodup hnd) (mem_keepKeys hmemk hk)

/-- Claim C9 witness: a concrete child with a regular property and a
`$schema` key (both non-directive, distinct) merges against an absent parent
into exactly its non-ignored fields with its own original values. -/
theorem claim9_witness :
    (∀ k ∈ ([("a", JValue.num 1), ("$schema", JValue.str "s")].map Prod.fst),
      parseMergeBehaviorKey k = none)
    ∧ mergeObjects 1 none
        (some (.obj [("a", .num 1), ("$schema", .str "s")]
          (some (some "f.json", [("a", .num 1), ("$schema", .str "s")]))))
        "f.json" [] ["extends", "$schema"]
      = .ok (noExtendsMergeResult "f.json"
          [("a", .num 1), ("$schema", .str "s")]
          [("a", .num 1), ("$schema", .str "s")] ["extends", "$schema"]) :=
  ⟨by decide,
    (claim9_no_extends_identity 0 "f.json"
      [("a", .num 1), ("$schema", .str "s")]
      [("a", .num 1), ("$schema", .str "s")] (some "f.json") []
      ["extends", "$schema"] (by decide) (by decide)).1⟩
